import Mathlib

/-!
Verification development for the TrainTicket fault-detection analyzer
(`analyze_fault_detection.py`).

Python strings are modelled as `List Char`; parsed JSON documents as the
inductive `Json` below; the per-run detection ledger (a `defaultdict` from
fault name to a list of detection-detail dicts) as an association list that
preserves key insertion order.  Machine-independent arithmetic (the report's
detection percentage) is modelled over `ℚ`; all values involved in the claims
are small enough that Python's float arithmetic and exact rational arithmetic
agree on every stated fact.
-/

set_option maxRecDepth 4000

namespace FaultAnalysis

/-- A parsed JSON value (the result of `json.load`).  Python dicts are
modelled as association lists in insertion order. -/
inductive Json where
  | null : Json
  | bool : Bool → Json
  | num : Int → Json
  | str : List Char → Json
  | arr : List Json → Json
  | obj : List (List Char × Json) → Json

mutual

def Json.beq : Json → Json → Bool
  | .null, .null => true
  | .bool a, .bool b => a == b
  | .num a, .num b => a == b
  | .str a, .str b => a == b
  | .arr xs, .arr ys => Json.beqL xs ys
  | .obj fs, .obj gs => Json.beqF fs gs
  | _, _ => false

def Json.beqL : List Json → List Json → Bool
  | [], [] => true
  | x :: xs, y :: ys => Json.beq x y && Json.beqL xs ys
  | _, _ => false

def Json.beqF : List (List Char × Json) → List (List Char × Json) → Bool
  | [], [] => true
  | (k1, v1) :: fs, (k2, v2) :: gs => k1 == k2 && Json.beq v1 v2 && Json.beqF fs gs
  | _, _ => false

end

mutual

theorem Json.beq_iff : (a b : Json) → (Json.beq a b = true ↔ a = b)
  | .null, .null => by simp [Json.beq]
  | .null, .bool _ => by simp [Json.beq]
  | .null, .num _ => by simp [Json.beq]
  | .null, .str _ => by simp [Json.beq]
  | .null, .arr _ => by simp [Json.beq]
  | .null, .obj _ => by simp [Json.beq]
  | .bool _, .null => by simp [Json.beq]
  | .bool _, .bool _ => by simp [Json.beq]
  | .bool _, .num _ => by simp [Json.beq]
  | .bool _, .str _ => by simp [Json.beq]
  | .bool _, .arr _ => by simp [Json.beq]
  | .bool _, .obj _ => by simp [Json.beq]
  | .num _, .null => by simp [Json.beq]
  | .num _, .bool _ => by simp [Json.beq]
  | .num _, .num _ => by simp [Json.beq]
  | .num _, .str _ => by simp [Json.beq]
  | .num _, .arr _ => by simp [Json.beq]
  | .num _, .obj _ => by simp [Json.beq]
  | .str _, .null => by simp [Json.beq]
  | .str _, .bool _ => by simp [Json.beq]
  | .str _, .num _ => by simp [Json.beq]
  | .str _, .str _ => by simp [Json.beq]
  | .str _, .arr _ => by simp [Json.beq]
  | .str _, .obj _ => by simp [Json.beq]
  | .arr _, .null => by simp [Json.beq]
  | .arr _, .bool _ => by simp [Json.beq]
  | .arr _, .num _ => by simp [Json.beq]
  | .arr _, .str _ => by simp [Json.beq]
  | .arr xs, .arr ys => by simp [Json.beq, Json.beqL_iff xs ys]
  | .arr _, .obj _ => by simp [Json.beq]
  | .obj _, .null => by simp [Json.beq]
  | .obj _, .bool _ => by simp [Json.beq]
  | .obj _, .num _ => by simp [Json.beq]
  | .obj _, .str _ => by simp [Json.beq]
  | .obj _, .arr _ => by simp [Json.beq]
  | .obj fs, .obj gs => by simp [Json.beq, Json.beqF_iff fs gs]

theorem Json.beqL_iff : (xs ys : List Json) → (Json.beqL xs ys = true ↔ xs = ys)
  | [], [] => by simp [Json.beqL]
  | [], _ :: _ => by simp [Json.beqL]
  | _ :: _, [] => by simp [Json.beqL]
  | x :: xs, y :: ys => by
      simp [Json.beqL, Json.beq_iff x y, Json.beqL_iff xs ys]

theorem Json.beqF_iff : (fs gs : List (List Char × Json)) → (Json.beqF fs gs = true ↔ fs = gs)
  | [], [] => by simp [Json.beqF]
  | [], _ :: _ => by simp [Json.beqF]
  | _ :: _, [] => by simp [Json.beqF]
  | (k1, v1) :: fs, (k2, v2) :: gs => by
      simp [Json.beqF, Json.beq_iff v1 v2, Json.beqF_iff fs gs, and_assoc]

end

instance : DecidableEq Json := fun a b => decidable_of_iff _ (Json.beq_iff a b)

/-- One detection-detail dict as built by the call sites of
`_record_detection`.  Every field a call site may set is optional; `none`
models the key being absent from the Python dict (so `d.get(k)` is `None`). -/
structure DetRecord where
  source : Option (List Char) := none
  path : Option (List Char) := none
  message : Option Json := none
  details : Option Json := none
  context : Option (List Char) := none
  test_class : Option (List Char) := none
  test_method : Option (List Char) := none
  api_path : Option (List Char) := none
  timestamp : Option (List Char) := none
deriving DecidableEq

/-- One entry of the module-level `INJECTED_FAULTS` list. -/
structure FaultDef where
  faultName : List Char
  service : List Char
  api : List (List Char)
  description : List Char
deriving DecidableEq

/-- The static fault catalog `INJECTED_FAULTS`, in source order. -/
def INJECTED_FAULTS : List FaultDef := [
  { faultName := "INVALID_CONTACTS_NAME_FAULT".toList,
    service := "ts-admin-order-service".toList,
    api := ["POST /api/v1/adminorderservice/adminorder".toList,
            "PUT /api/v1/adminorderservice/adminorder".toList],
    description := "Rejects order when contactsName is null, empty, or purely numeric".toList },
  { faultName := "INVALID_SEAT_NUMBER_FAULT".toList,
    service := "ts-admin-order-service".toList,
    api := ["POST /api/v1/adminorderservice/adminorder".toList,
            "PUT /api/v1/adminorderservice/adminorder".toList],
    description := "Rejects order when seatNumber doesn't follow format (digits + uppercase letter)".toList },
  { faultName := "INVALID_PRICE_RATE_FAULT".toList,
    service := "ts-admin-basic-info-service".toList,
    api := ["POST /api/v1/adminbasicservice/adminbasic/prices".toList],
    description := "Rejects price creation when price rates are non-positive".toList },
  { faultName := "INVALID_ROUTE_ID_FAULT".toList,
    service := "ts-admin-basic-info-service".toList,
    api := ["POST /api/v1/adminbasicservice/adminbasic/prices".toList],
    description := "Rejects price creation when routeId is null or empty".toList },
  { faultName := "INVALID_STATION_NAME_FAULT".toList,
    service := "ts-travel-plan-service".toList,
    api := ["POST /api/v1/travelplanservice/travelPlan/minStation".toList],
    description := "Rejects travel plan when station names are null or empty".toList },
  { faultName := "INVALID_STATION_LENGTH_FAULT".toList,
    service := "ts-travel-plan-service".toList,
    api := ["POST /api/v1/travelplanservice/travelPlan/minStation".toList],
    description := "Rejects travel plan when station name length is outside valid range".toList },
  { faultName := "INVALID_TRIP_ID_FORMAT_FAULT".toList,
    service := "ts-admin-travel-service".toList,
    api := ["DELETE /api/v1/admintravelservice/admintravel/\x7btripId\x7d".toList],
    description := "Rejects trip deletion when tripId is null or empty".toList },
  { faultName := "INVALID_TRIP_ID_LENGTH_FAULT".toList,
    service := "ts-admin-travel-service".toList,
    api := ["DELETE /api/v1/admintravelservice/admintravel/\x7btripId\x7d".toList],
    description := "Rejects trip deletion when tripId length is invalid".toList },
  { faultName := "INSUFFICIENT_STATIONS_FAULT".toList,
    service := "ts-admin-route-service".toList,
    api := ["POST /api/v1/adminrouteservice/adminroute".toList],
    description := "Rejects route creation when station list has fewer than 2 stations".toList },
  { faultName := "INVALID_STATION_NAME_LENGTH_FAULT".toList,
    service := "ts-admin-route-service".toList,
    api := ["POST /api/v1/adminrouteservice/adminroute".toList],
    description := "Rejects route creation when station name length is outside valid range".toList }
]

/-! ## The Detection Ledger (`self.detected_faults`)

A `defaultdict(list)` keyed by the fault name.  Keys are `Json` values
because `_search_json_for_faults` uses `obj.get('faultName', 'UNKNOWN')`
directly as the key; the text scanner always uses catalog names wrapped as
`Json.str`.  Modelled as an association list in key-insertion order. -/

def Ledger : Type := List (Json × List DetRecord)

/-- `self.detected_faults.get(name, [])`: value of the first (and, for
ledgers built by `recordDetection`, only) entry with that key. -/
def ledgerGet : Ledger → Json → List DetRecord
  | [], _ => []
  | (k, recs) :: rest, n => if k = n then recs else ledgerGet rest n

/-- Replace the value stored under key `n` (appending the key at the end if
absent — the position a `defaultdict` gives a freshly created key). -/
def setKey : Ledger → Json → List DetRecord → Ledger
  | [], n, v => [(n, v)]
  | (k, recs) :: rest, n, v =>
      if k = n then (k, v) :: rest else (k, recs) :: setKey rest n v

/-- The dedup test of `_record_detection`:
`existing.get('test_method') == details.get('test_method') and
 existing.get('source') == details.get('source')`. -/
def sameKeyPair (e d : DetRecord) : Bool :=
  decide (e.test_method = d.test_method ∧ e.source = d.source)

/-- `_record_detection(fault_name, details)`: scan existing records under the
fault name; if one has the same `(source, test_method)` pair, do nothing,
otherwise append `details`. -/
def recordDetection (l : Ledger) (n : Json) (d : DetRecord) : Ledger :=
  if (ledgerGet l n).any (fun e => sameKeyPair e d) then l
  else setKey l n (ledgerGet l n ++ [d])

/-! Basic ledger lemmas. -/

theorem ledgerGet_setKey_self (l : Ledger) (n : Json) (v : List DetRecord) :
    ledgerGet (setKey l n v) n = v := by
  induction l with
  | nil => simp [setKey, ledgerGet]
  | cons p rest ih =>
      obtain ⟨k, recs⟩ := p
      by_cases h : k = n
      · simp [setKey, h, ledgerGet]
      · simp [setKey, h, ledgerGet, ih]

theorem ledgerGet_setKey_ne (l : Ledger) (n m : Json) (v : List DetRecord)
    (h : m ≠ n) : ledgerGet (setKey l n v) m = ledgerGet l m := by
  induction l with
  | nil =>
      simp only [setKey, ledgerGet]
      rw [if_neg (fun hh => h hh.symm)]
  | cons p rest ih =>
      obtain ⟨k, recs⟩ := p
      by_cases hk : k = n
      · subst hk
        have hkm : ¬ k = m := fun hh => h hh.symm
        simp [setKey, ledgerGet, hkm]
      · by_cases hkm : k = m
        · simp [setKey, hk, ledgerGet, hkm, h]
        · simp [setKey, hk, ledgerGet, hkm, ih]

theorem sameKeyPair_iff (e d : DetRecord) :
    sameKeyPair e d = true ↔ (e.test_method = d.test_method ∧ e.source = d.source) := by
  simp [sameKeyPair]

theorem any_sameKeyPair_iff (recs : List DetRecord) (d : DetRecord) :
    (recs.any fun e => sameKeyPair e d) = true ↔
      ∃ e ∈ recs, e.test_method = d.test_method ∧ e.source = d.source := by
  simp [List.any_eq_true, sameKeyPair_iff]

/-- The per-fault dedup invariant of the Ledger: under every fault name, no
two stored records share the same `(source, test_method)` pair. -/
def LedgerDeduped (l : Ledger) : Prop :=
  ∀ n : Json, (ledgerGet l n).Pairwise
    (fun a b => ¬(a.test_method = b.test_method ∧ a.source = b.source))

/-- The Ledger starts empty for each analysis run. -/
def emptyLedger : Ledger := []

/-- Any sequence of insertions, starting from the empty Ledger. -/
def insertAll (inserts : List (Json × DetRecord)) : Ledger :=
  inserts.foldl (fun l p => recordDetection l p.1 p.2) emptyLedger

theorem recordDetection_noop (l : Ledger) (n : Json) (d : DetRecord)
    (h : ∃ e ∈ ledgerGet l n, e.test_method = d.test_method ∧ e.source = d.source) :
    recordDetection l n d = l := by
  unfold recordDetection
  rw [(any_sameKeyPair_iff _ _).2 h]
  simp

theorem recordDetection_append (l : Ledger) (n : Json) (d : DetRecord)
    (h : ∀ e ∈ ledgerGet l n, ¬(e.test_method = d.test_method ∧ e.source = d.source)) :
    ledgerGet (recordDetection l n d) n = ledgerGet l n ++ [d] ∧
    ∀ m, m ≠ n → ledgerGet (recordDetection l n d) m = ledgerGet l m := by
  have hany : (ledgerGet l n).any (fun e => sameKeyPair e d) = false := by
    cases hcase : (ledgerGet l n).any (fun e => sameKeyPair e d) with
    | false => rfl
    | true =>
        obtain ⟨e, he, hpair⟩ := (any_sameKeyPair_iff _ _).1 hcase
        exact absurd hpair (h e he)
  unfold recordDetection
  rw [hany]
  simp only [Bool.false_eq_true, if_false]
  exact ⟨ledgerGet_setKey_self l n _, fun m hm => ledgerGet_setKey_ne l n m _ hm⟩

theorem recordDetection_preserves_dedup (l : Ledger) (n : Json) (d : DetRecord)
    (h : LedgerDeduped l) : LedgerDeduped (recordDetection l n d) := by
  by_cases hex : ∃ e ∈ ledgerGet l n, e.test_method = d.test_method ∧ e.source = d.source
  · rw [recordDetection_noop l n d hex]; exact h
  · push_neg at hex
    intro m
    by_cases hm : m = n
    · subst hm
      rw [(recordDetection_append l m d (by
        intro e he
        intro hpair
        exact (hex e he hpair.1) hpair.2)).1]
      rw [List.pairwise_append]
      refine ⟨h m, List.pairwise_singleton _ _, ?_⟩
      intro a ha b hb
      simp only [List.mem_singleton] at hb
      subst hb
      intro hpair
      exact (hex a ha hpair.1) hpair.2
    · rw [(recordDetection_append l n d (by
        intro e he hpair
        exact (hex e he hpair.1) hpair.2)).2 m hm]
      exact h m

theorem emptyLedger_deduped : LedgerDeduped emptyLedger := by
  intro n
  simp [emptyLedger, ledgerGet]

theorem insertAll_deduped (inserts : List (Json × DetRecord)) :
    LedgerDeduped (insertAll inserts) := by
  suffices hgen : ∀ (l : Ledger), LedgerDeduped l →
      LedgerDeduped (inserts.foldl (fun l p => recordDetection l p.1 p.2) l) by
    exact hgen emptyLedger emptyLedger_deduped
  induction inserts with
  | nil => intro l hl; exact hl
  | cons p rest ih =>
      intro l hl
      exact ih _ (recordDetection_preserves_dedup l p.1 p.2 hl)

/-- C1: the Ledger insertion operation `_record_detection` is a no-op exactly
when a record with the same `(source, test_method)` pair is already stored
under the fault name, appends otherwise, keeps every fault name's record list
free of duplicate `(source, test_method)` pairs under arbitrary insertion
sequences, and stores exactly one record (the first) when two records with
identical fault name, source and test method are inserted. -/
theorem recordDetection_dedup_contract :
    (∀ (l : Ledger) (n : Json) (d : DetRecord),
       ((∃ e ∈ ledgerGet l n, e.test_method = d.test_method ∧ e.source = d.source) →
          recordDetection l n d = l) ∧
       ((∀ e ∈ ledgerGet l n, ¬(e.test_method = d.test_method ∧ e.source = d.source)) →
          ledgerGet (recordDetection l n d) n = ledgerGet l n ++ [d] ∧
          ∀ m, m ≠ n → ledgerGet (recordDetection l n d) m = ledgerGet l m)) ∧
    (∀ inserts : List (Json × DetRecord), LedgerDeduped (insertAll inserts)) ∧
    (∀ (n : Json) (d d' : DetRecord),
       d'.test_method = d.test_method → d'.source = d.source →
       ledgerGet (recordDetection (recordDetection emptyLedger n d) n d') n = [d]) := by
  refine ⟨fun l n d => ⟨recordDetection_noop l n d, recordDetection_append l n d⟩,
          insertAll_deduped, ?_⟩
  intro n d d' htm hsrc
  have h0 : ledgerGet emptyLedger n = [] := by simp [emptyLedger, ledgerGet]
  have h1 : ledgerGet (recordDetection emptyLedger n d) n = [d] := by
    rw [(recordDetection_append emptyLedger n d (by rw [h0]; intro e he; cases he)).1, h0]
    rfl
  have h2 : recordDetection (recordDetection emptyLedger n d) n d' =
      recordDetection emptyLedger n d := by
    refine recordDetection_noop _ n d' ?_
    refine ⟨d, ?_, htm.symm, hsrc.symm⟩
    rw [h1]
    simp
  rw [h2, h1]

/-- Witness for C1 at concrete inputs. -/
theorem recordDetection_dedup_contract_witness :
    ledgerGet (recordDetection (recordDetection emptyLedger
        (.str "INVALID_PRICE_RATE_FAULT".toList)
        { source := some "EvoMaster_Test.py".toList,
          test_method := some "test_1".toList,
          context := some "first".toList })
        (.str "INVALID_PRICE_RATE_FAULT".toList)
        { source := some "EvoMaster_Test.py".toList,
          test_method := some "test_1".toList,
          context := some "second".toList })
      (.str "INVALID_PRICE_RATE_FAULT".toList) =
      [{ source := some "EvoMaster_Test.py".toList,
         test_method := some "test_1".toList,
         context := some "first".toList }] :=
  recordDetection_dedup_contract.2.2 _ _ _ rfl rfl

/-! ## The Test-Method Locator (`_find_containing_test_method`)

The locator runs `re.finditer(r'def (test_\w+)\(self\):', content[:position])`
and returns the last match's group, or `None`.  A definition marker is the
literal `def test_` followed by a (greedy, nonempty together with `test_`)
run of word characters followed by the literal `(self):`; the captured group
is `test_` plus the word run.  `\w` is modelled for the ASCII artifacts the
analyzer scans. -/

/-- Python's `\w` on the analyzer's ASCII artifact texts. -/
def isWordChar (c : Char) : Bool := c.isAlphanum || c == '_'

def defTestPre : List Char := "def test_".toList

def testPre : List Char := "test_".toList

def selfSuffix : List Char := "(self):".toList

/-- Try to match one definition marker at the head of `s`; return the
captured group (`test_` plus the greedy word-character run). -/
def matchMarker (s : List Char) : Option (List Char) :=
  if defTestPre.isPrefixOf s then
    let w := (s.drop 9).takeWhile isWordChar
    if w = [] then none
    else if selfSuffix.isPrefixOf ((s.drop 9).drop w.length) then some (testPre ++ w)
    else none
  else none

/-- `re.finditer` over the whole text: scan left to right, emit each match's
group, resume after the end of a match (matches of this pattern can never
overlap, as proved below).  `skip` counts positions still inside the
previous match's span. -/
def scanMarkersAux : List Char → Nat → List (List Char)
  | [], _ => []
  | _ :: rest, k + 1 => scanMarkersAux rest k
  | c :: rest, 0 =>
      match matchMarker (c :: rest) with
      | some nm => nm :: scanMarkersAux rest (nm.length + 10)
      | none => scanMarkersAux rest 0

def scanMarkers (s : List Char) : List (List Char) := scanMarkersAux s 0

/-- `_find_containing_test_method(content, position)`: the last marker found
in `content[:position]`, or none.  (A pure lookup; it never touches the
Ledger.) -/
def findContainingTestMethod (content : List Char) (position : Nat) : Option (List Char) :=
  (scanMarkers (content.take position)).getLast?

/-- Spec-side description: all markers of the prefix, by matching position. -/
def markerNamesAt (s : List Char) : List (List Char) :=
  (List.range s.length).filterMap (fun i => matchMarker (s.drop i))

theorem isPrefixOf_eq_true_iff : (p s : List Char) → (p.isPrefixOf s = true ↔ ∃ t, s = p ++ t)
  | [], s => by simp [List.isPrefixOf]
  | c :: p, [] => by simp [List.isPrefixOf]
  | c :: p, d :: s => by
      simp only [List.isPrefixOf, Bool.and_eq_true, beq_iff_eq,
        isPrefixOf_eq_true_iff p s, List.cons_append, List.cons.injEq]
      constructor
      · rintro ⟨hcd, t, ht⟩
        exact ⟨t, hcd.symm, ht⟩
      · rintro ⟨t, hdc, ht⟩
        exact ⟨hdc.symm, t, ht⟩

theorem eq_takeWhile_append_drop (p : Char → Bool) :
    (l : List Char) → l = l.takeWhile p ++ l.drop (l.takeWhile p).length
  | [] => rfl
  | c :: l => by
      by_cases hc : p c
      · simp only [List.takeWhile_cons, hc, if_true, List.length_cons, List.drop_succ_cons,
          List.cons_append, List.cons.injEq, true_and]
        exact eq_takeWhile_append_drop p l
      · simp [List.takeWhile_cons, hc]

theorem takeWhile_all_append (p : Char → Bool) :
    (w r : List Char) → (∀ c ∈ w, p c = true) →
      (w ++ r).takeWhile p = w ++ r.takeWhile p
  | [], r, _ => by simp
  | c :: w, r, h => by
      have hc : p c = true := h c (by simp)
      simp only [List.cons_append, List.takeWhile_cons, hc, if_true]
      rw [takeWhile_all_append p w r (fun x hx => h x (by simp [hx]))]

/-- `matchMarker` succeeds exactly on texts of the shape
`"def test_" ++ w ++ "(self):" ++ t` with `w` a nonempty word run, and then
captures `"test_" ++ w`. -/
theorem matchMarker_eq_some_iff (s nm : List Char) :
    matchMarker s = some nm ↔
      ∃ w t, w ≠ [] ∧ (∀ c ∈ w, isWordChar c = true) ∧
        s = defTestPre ++ (w ++ (selfSuffix ++ t)) ∧ nm = testPre ++ w := by
  constructor
  · intro h
    unfold matchMarker at h
    by_cases hpre : defTestPre.isPrefixOf s = true
    · rw [if_pos hpre] at h
      obtain ⟨rest, hrest⟩ := (isPrefixOf_eq_true_iff _ _).1 hpre
      have hdrop : s.drop 9 = rest := by
        rw [hrest]
        have h9 : (9 : Nat) = defTestPre.length := rfl
        rw [h9, List.drop_left]
      rw [hdrop] at h
      set w := rest.takeWhile isWordChar with hw
      by_cases hwnil : w = []
      · rw [if_pos hwnil] at h; cases h
      · rw [if_neg hwnil] at h
        by_cases hsuf : selfSuffix.isPrefixOf (rest.drop w.length) = true
        · rw [if_pos hsuf] at h
          obtain ⟨t, ht⟩ := (isPrefixOf_eq_true_iff _ _).1 hsuf
          refine ⟨w, t, hwnil, ?_, ?_, ?_⟩
          · intro c hc
            exact List.mem_takeWhile_imp (hw ▸ hc)
          · rw [hrest]
            congr 1
            have hsplit : rest = w ++ rest.drop w.length := by
              conv_lhs => rw [eq_takeWhile_append_drop isWordChar rest]
            rw [ht] at hsplit
            exact hsplit
          · simpa using h.symm
        · rw [if_neg hsuf] at h; cases h
    · rw [if_neg hpre] at h; cases h
  · rintro ⟨w, t, hwnil, hword, hs, hnm⟩
    have hpre : defTestPre.isPrefixOf s = true :=
      (isPrefixOf_eq_true_iff _ _).2 ⟨w ++ (selfSuffix ++ t), hs⟩
    have hdrop : s.drop 9 = w ++ (selfSuffix ++ t) := by
      rw [hs]
      have h9 : (9 : Nat) = defTestPre.length := rfl
      rw [h9, List.drop_left]
    have htake : (w ++ (selfSuffix ++ t)).takeWhile isWordChar = w := by
      rw [takeWhile_all_append isWordChar w _ hword]
      have : (selfSuffix ++ t).takeWhile isWordChar = [] := by
        have hpar : isWordChar '(' = false := by decide
        simp [selfSuffix, List.takeWhile_cons, hpar]
      rw [this, List.append_nil]
    have hdroplen : (w ++ (selfSuffix ++ t)).drop w.length = selfSuffix ++ t :=
      List.drop_left w _
    unfold matchMarker
    rw [if_pos hpre, hdrop, htake, if_neg hwnil, hdroplen,
      if_pos ((isPrefixOf_eq_true_iff _ _).2 ⟨t, rfl⟩), hnm]

/-- Two definition markers can never overlap: inside the span of one match
(4 characters of `def `, the captured name, 7 characters of `(self):`) no
later position starts another match.  Hence the non-overlapping scan of
`re.finditer` finds every matching position. -/
theorem matchMarker_no_overlap (s nm : List Char) (h : matchMarker s = some nm) :
    ∀ j, 0 < j → j < nm.length + 11 → matchMarker (s.drop j) = none := by
  obtain ⟨w, t, hwnil, hword, hs, hnm⟩ := (matchMarker_eq_some_iff s nm).1 h
  intro j hj0 hjlt
  have hjw : j < w.length + 16 := by
    subst hnm
    simp only [List.length_append, testPre, String.toList] at hjlt
    have h5 : (['t', 'e', 's', 't', '_'] : List Char).length = 5 := rfl
    omega
  by_contra hne
  cases hm : matchMarker (List.drop j s) with
  | none => exact hne hm
  | some nm' =>
  obtain ⟨w', t', _, _, hs', _⟩ := (matchMarker_eq_some_iff _ nm').1 hm
  -- the overlapping match would put 'd' at s[j] and ' ' at s[j+3]
  have h0 : s[j]? = some 'd' := by
    have := List.getElem?_drop s j 0
    rw [hs'] at this
    simpa [defTestPre] using this.symm
  have h3 : s[j + 3]? = some ' ' := by
    have := List.getElem?_drop s j 3
    rw [hs'] at this
    simpa [defTestPre] using this.symm
  have h9 : defTestPre.length = 9 := rfl
  have h7 : selfSuffix.length = 7 := rfl
  have hspace : isWordChar ' ' = false := by decide
  rcases lt_or_le j 9 with hcaseA | hge9
  · -- j in 1..8: s[j] is a character of "def test_" other than 'd'
    rw [hs, List.getElem?_append_left (by omega : j < defTestPre.length)] at h0
    interval_cases j <;> simp [defTestPre] at h0
  · rcases lt_or_le j (9 + w.length) with hcaseB | hcaseC
    · -- j inside the word run: s[j+3] is a word character or '(' 's' 'e'
      rw [hs, List.getElem?_append_right (by omega : defTestPre.length ≤ j + 3), h9] at h3
      rcases lt_or_le (j + 3 - 9) w.length with hin | hout
      · rw [List.getElem?_append_left (by omega : j + 3 - 9 < w.length)] at h3
        obtain ⟨hlt, hc⟩ := List.getElem?_eq_some.1 h3
        have hmem : w[j + 3 - 9] ∈ w := List.getElem_mem hlt
        have := hword _ hmem
        rw [hc, hspace] at this
        cases this
      · rw [List.getElem?_append_right (by omega : w.length ≤ j + 3 - 9)] at h3
        set o := j + 3 - 9 - w.length with ho
        have ho2 : o < 3 := by omega
        rw [List.getElem?_append_left (by omega : o < selfSuffix.length)] at h3
        interval_cases o <;> simp [selfSuffix] at h3
    · -- j inside "(self):": s[j] is one of its characters, none of them 'd'
      rw [hs, List.getElem?_append_right (by omega : defTestPre.length ≤ j), h9,
        List.getElem?_append_right (by omega : w.length ≤ j - 9)] at h0
      set o := j - 9 - w.length with ho
      have ho2 : o < 7 := by omega
      rw [List.getElem?_append_left (by omega : o < selfSuffix.length)] at h0
      interval_cases o <;> simp [selfSuffix] at h0

theorem matchMarker_nil : matchMarker [] = none := rfl

theorem scanMarkersAux_eq_drop : (s : List Char) → (k : Nat) →
    scanMarkersAux s k = scanMarkersAux (s.drop k) 0
  | [], k => by simp [scanMarkersAux]
  | _ :: _, 0 => rfl
  | _ :: rest, k + 1 => by
      rw [List.drop_succ_cons]
      exact scanMarkersAux_eq_drop rest k

theorem markerNamesAt_cons_none (c : Char) (rest : List Char)
    (h : matchMarker (c :: rest) = none) :
    markerNamesAt (c :: rest) = markerNamesAt rest := by
  unfold markerNamesAt
  rw [List.length_cons, List.range_succ_eq_map, List.filterMap_cons]
  rw [List.drop_zero, h, List.filterMap_map]
  rfl

theorem matchMarker_length_le (s nm : List Char) (h : matchMarker s = some nm) :
    nm.length + 11 ≤ s.length := by
  obtain ⟨w, t, _, _, hs, hnm⟩ := (matchMarker_eq_some_iff s nm).1 h
  subst hs hnm
  have h9 : defTestPre.length = 9 := rfl
  have h7 : selfSuffix.length = 7 := rfl
  have h5 : testPre.length = 5 := rfl
  simp only [List.length_append, h9, h7, h5]
  omega

theorem markerNamesAt_split (s nm : List Char) (h : matchMarker s = some nm) :
    markerNamesAt s = nm :: markerNamesAt (s.drop (nm.length + 11)) := by
  set k := nm.length + 11 with hk
  have hk1 : 1 ≤ k := by omega
  have hkle : k ≤ s.length := matchMarker_length_le s nm h
  have hnone : ∀ j, 0 < j → j < k → matchMarker (s.drop j) = none :=
    matchMarker_no_overlap s nm h
  unfold markerNamesAt
  rw [show s.length = k + (s.length - k) by omega, List.range_add, List.filterMap_append]
  have hfirst :
      (List.range k).filterMap (fun i => matchMarker (s.drop i)) = [nm] := by
    rw [show k = (k - 1) + 1 by omega, List.range_succ_eq_map, List.filterMap_cons]
    rw [List.drop_zero, h, List.filterMap_map]
    have hrest :
        (List.range (k - 1)).filterMap
          ((fun i => matchMarker (s.drop i)) ∘ Nat.succ) = [] := by
      rw [List.filterMap_eq_nil_iff]
      intro a ha
      rw [List.mem_range] at ha
      exact hnone (a + 1) (by omega) (by omega)
    rw [hrest]
  rw [hfirst]
  have hsecond :
      (List.map (fun x => k + x) (List.range (s.length - k))).filterMap
          (fun i => matchMarker (s.drop i)) =
        markerNamesAt (s.drop k) := by
    rw [List.filterMap_map, markerNamesAt, List.length_drop]
    congr 1
    funext i
    simp [Function.comp, List.drop_drop]
  rw [hsecond]
  rfl

/-- The non-overlapping left-to-right scan finds exactly the markers of the
whole text, in position order. -/
theorem scanMarkers_eq_markerNamesAt : (s : List Char) → scanMarkers s = markerNamesAt s
  | [] => by simp [scanMarkers, scanMarkersAux, markerNamesAt]
  | c :: rest => by
      cases hm : matchMarker (c :: rest) with
      | some nm =>
          have hstep : scanMarkers (c :: rest) =
              nm :: scanMarkers (rest.drop (nm.length + 10)) := by
            unfold scanMarkers
            simp only [scanMarkersAux, hm]
            rw [scanMarkersAux_eq_drop rest (nm.length + 10)]
          have hdrop : (c :: rest).drop (nm.length + 11) = rest.drop (nm.length + 10) := by
            rw [show nm.length + 11 = (nm.length + 10) + 1 by omega, List.drop_succ_cons]
          rw [hstep, markerNamesAt_split _ nm hm, hdrop,
            scanMarkers_eq_markerNamesAt (rest.drop (nm.length + 10))]
      | none =>
          have hstep : scanMarkers (c :: rest) = scanMarkers rest := by
            unfold scanMarkers
            simp only [scanMarkersAux, hm]
          rw [hstep, markerNamesAt_cons_none c rest hm,
            scanMarkers_eq_markerNamesAt rest]
termination_by s => s.length
decreasing_by
  all_goals simp only [List.length_cons, List.length_drop]
  all_goals omega

theorem getLast?_filterMap_range_eq_none {α : Type} (f : Nat → Option α) (n : Nat) :
    ((List.range n).filterMap f).getLast? = none ↔ ∀ i < n, f i = none := by
  rw [List.getLast?_eq_none_iff, List.filterMap_eq_nil_iff]
  simp [List.mem_range]

theorem getLast?_filterMap_range_eq_some {α : Type} (f : Nat → Option α) (n : Nat) (v : α) :
    ((List.range n).filterMap f).getLast? = some v ↔
      ∃ i, i < n ∧ f i = some v ∧ ∀ j, i < j → j < n → f j = none := by
  induction n with
  | zero => simp
  | succ n ih =>
      rw [List.range_succ, List.filterMap_append]
      cases hf : f n with
      | some v' =>
          simp only [List.filterMap_cons, hf, List.filterMap_nil]
          rw [List.getLast?_concat]
          constructor
          · intro hv
            injection hv with hv
            subst hv
            exact ⟨n, by omega, hf, fun j hj1 hj2 => by omega⟩
          · rintro ⟨i, hi, hfi, hnone⟩
            rcases Nat.lt_or_ge i n with hin | hgein
            · rw [hnone n hin (by omega)] at hf
              cases hf
            · have hieq : i = n := by omega
              subst hieq
              rw [hfi] at hf
              injection hf with hf
              rw [hf]
      | none =>
          simp only [List.filterMap_cons, hf, List.filterMap_nil, List.append_nil]
          rw [ih]
          constructor
          · rintro ⟨i, hi, hfi, hnone⟩
            refine ⟨i, by omega, hfi, fun j hj1 hj2 => ?_⟩
            rcases Nat.lt_or_ge j n with hlt | hge
            · exact hnone j hj1 hlt
            · have : j = n := by omega
              subst this
              exact hf
          · rintro ⟨i, hi, hfi, hnone⟩
            have hin : i < n := by
              rcases Nat.lt_or_ge i n with hlt | hge
              · exact hlt
              · have : i = n := by omega
                subst this
                rw [hf] at hfi
                cases hfi
            exact ⟨i, hin, hfi, fun j hj1 hj2 => hnone j hj1 (by omega)⟩

/-- C5: `_find_containing_test_method` returns the identifier captured by the
nearest definition marker matching inside the text prefix up to the offset —
the last marker found in `content[:position]` — and returns none exactly when
no marker matches anywhere in that prefix.  (It is a pure lookup over the
text; the Ledger does not occur in its type.) -/
theorem findContainingTestMethod_spec (content : List Char) (position : Nat) :
    (findContainingTestMethod content position = none ↔
      ∀ i, matchMarker ((content.take position).drop i) = none) ∧
    (∀ nm, findContainingTestMethod content position = some nm ↔
      ∃ i, matchMarker ((content.take position).drop i) = some nm ∧
        ∀ j, i < j → matchMarker ((content.take position).drop j) = none) := by
  set pre := content.take position with hpredef
  have heq : findContainingTestMethod content position = (markerNamesAt pre).getLast? := by
    rw [findContainingTestMethod, scanMarkers_eq_markerNamesAt]
  have hbig : ∀ j, pre.length ≤ j → matchMarker (pre.drop j) = none := by
    intro j hj
    rw [List.drop_eq_nil_of_le hj]
    exact matchMarker_nil
  constructor
  · rw [heq, markerNamesAt, getLast?_filterMap_range_eq_none]
    constructor
    · intro h i
      rcases Nat.lt_or_ge i pre.length with h1 | h1
      · exact h i h1
      · exact hbig i h1
    · intro h i _
      exact h i
  · intro nm
    rw [heq, markerNamesAt, getLast?_filterMap_range_eq_some]
    constructor
    · rintro ⟨i, hi, hf, hnone⟩
      refine ⟨i, hf, fun j hj => ?_⟩
      rcases Nat.lt_or_ge j pre.length with h1 | h1
      · exact hnone j hj h1
      · exact hbig j h1
    · rintro ⟨i, hf, hnone⟩
      have hi : i < pre.length := by
        by_contra hge
        rw [hbig i (by omega)] at hf
        cases hf
      exact ⟨i, hi, hf, fun j hj _ => hnone j hj⟩

/-- Witness for C5: on a concrete artifact with two test-method definitions,
the locator resolves the nearest preceding one. -/
theorem findContainingTestMethod_spec_witness :
    ∃ i, matchMarker ((("def test_go(self): a def test_ok(self): yy".toList).take 41).drop i) =
        some "test_ok".toList ∧
      ∀ j, i < j →
        matchMarker ((("def test_go(self): a def test_ok(self): yy".toList).take 41).drop j) = none :=
  ((findContainingTestMethod_spec "def test_go(self): a def test_ok(self): yy".toList 41).2
    "test_ok".toList).1 (by decide)

/-! ## Endpoint path patterns (`_analyze_test_content`, lines 208–211)

`path_pattern = path.replace('{tripId}', r'[^"\']+').replace('/', r'/')`
(the second `replace` maps `/` to `/` and is a no-op).  The resulting regex
consists of literal characters plus the character class `[^"']+`, modelled
as a token list. -/

/-- A character matched by the class `[^"\']+`. -/
def isNonQuote (c : Char) : Bool := !(c == '"' || c == '\'')

inductive PatTok where
  | lit : Char → PatTok
  | nonQuotePlus : PatTok
deriving DecidableEq

def tripIdTok : List Char := "\x7btripId\x7d".toList

def lbrace : Char := Char.ofNat 123

def rbrace : Char := Char.ofNat 125

/-- `path.replace('{tripId}', …)`: scan left to right, replacing each
occurrence of the literal `\x7btripId\x7d` (8 characters; `skip` counts
positions still inside a replaced occurrence). -/
def pathToPatternAux : List Char → Nat → List PatTok
  | [], _ => []
  | _ :: rest, k + 1 => pathToPatternAux rest k
  | c :: rest, 0 =>
      if tripIdTok.isPrefixOf (c :: rest) then
        .nonQuotePlus :: pathToPatternAux rest 7
      else .lit c :: pathToPatternAux rest 0

def pathToPattern (p : List Char) : List PatTok := pathToPatternAux p 0

/-- Spec-side conversion: replace ANY bracketed placeholder segment — an
opening brace, a nonempty placeholder name (word characters), a closing
brace — by the one-or-more-non-quote-characters token. -/
def specPlaceholderAux : List Char → Nat → List PatTok
  | [], _ => []
  | _ :: rest, k + 1 => specPlaceholderAux rest k
  | c :: rest, 0 =>
      if c = lbrace then
        let nm := rest.takeWhile isWordChar
        match rest.drop nm.length with
        | d :: _ =>
            if d = rbrace ∧ nm ≠ [] then .nonQuotePlus :: specPlaceholderAux rest (nm.length + 1)
            else .lit c :: specPlaceholderAux rest 0
        | [] => .lit c :: specPlaceholderAux rest 0
      else .lit c :: specPlaceholderAux rest 0

def specPlaceholderPattern (p : List Char) : List PatTok := specPlaceholderAux p 0

/-- Whether a token pattern matches a whole string (the class token matching
one or more non-quote characters, as `[^"\']+` does). -/
def patAccepts : List PatTok → List Char → Bool
  | [], [] => true
  | [], _ :: _ => false
  | .lit _ :: _, [] => false
  | .lit c :: p, d :: s => c == d && patAccepts p s
  | .nonQuotePlus :: p, s =>
      (List.range s.length).any (fun k =>
        ((s.take (k + 1)).all isNonQuote) && patAccepts p (s.drop (k + 1)))

/-- Instantiate a spec-side pattern: keep the literal characters and replace
each placeholder token by the concrete segment `s`. -/
def renderPat : List PatTok → List Char → List Char
  | [], _ => []
  | .lit c :: p, s => c :: renderPat p s
  | .nonQuotePlus :: p, s => s ++ renderPat p s

/-- `api.split(' ', 1)`: the method before the first space and the path
after it (every catalog descriptor contains a space). -/
def splitFirstSpace : List Char → (List Char × List Char)
  | [] => ([], [])
  | c :: rest =>
      if c = ' ' then ([], rest)
      else ((splitFirstSpace rest).1.cons c, (splitFirstSpace rest).2)

def apiPathOf (api : List Char) : List Char := (splitFirstSpace api).2

theorem patAccepts_renderPat : (toks : List PatTok) → (s : List Char) → s ≠ [] →
    (∀ c ∈ s, isNonQuote c = true) → patAccepts toks (renderPat toks s) = true
  | [], s, _, _ => by simp [renderPat, patAccepts]
  | .lit c :: p, s, hne, hnq => by
      simp only [renderPat, patAccepts, Bool.and_eq_true, beq_self_eq_true, true_and]
      exact patAccepts_renderPat p s hne hnq
  | .nonQuotePlus :: p, s, hne, hnq => by
      have hslen : 1 ≤ s.length := by
        cases s with
        | nil => exact absurd rfl hne
        | cons a t => simp
      simp only [renderPat, patAccepts, List.any_eq_true]
      refine ⟨s.length - 1, ?_, ?_⟩
      · rw [List.mem_range, List.length_append]
        omega
      · have hidx : s.length - 1 + 1 = s.length := by omega
        rw [Bool.and_eq_true, hidx, List.take_left, List.drop_left]
        constructor
        · rw [List.all_eq_true]
          exact hnq
        · exact patAccepts_renderPat p s hne hnq

/-- C6: for every API descriptor of every catalog fault, the code's
conversion (which textually replaces the literal `\x7btripId\x7d`) produces
exactly the pattern in which every bracketed placeholder segment of the path
becomes a one-or-more-non-quote-characters class, and consequently the
pattern matches every concrete instantiation of the templated path. -/
theorem pathPattern_placeholder_spec :
    (∀ f ∈ INJECTED_FAULTS, ∀ a ∈ f.api,
        pathToPattern (apiPathOf a) = specPlaceholderPattern (apiPathOf a)) ∧
    (∀ f ∈ INJECTED_FAULTS, ∀ a ∈ f.api, ∀ s : List Char, s ≠ [] →
        (∀ c ∈ s, isNonQuote c = true) →
        patAccepts (pathToPattern (apiPathOf a))
          (renderPat (specPlaceholderPattern (apiPathOf a)) s) = true) := by
  have hconv : ∀ f ∈ INJECTED_FAULTS, ∀ a ∈ f.api,
      pathToPattern (apiPathOf a) = specPlaceholderPattern (apiPathOf a) := by decide
  refine ⟨hconv, ?_⟩
  intro f hf a ha s hne hnq
  rw [hconv f hf a ha]
  exact patAccepts_renderPat _ s hne hnq

/-- Witness for C6: the templated `DELETE` path with `tripId` instantiated
to `123` matches the code's pattern. -/
theorem pathPattern_placeholder_spec_witness :
    patAccepts
      (pathToPattern (apiPathOf "DELETE /api/v1/admintravelservice/admintravel/\x7btripId\x7d".toList))
      (renderPat
        (specPlaceholderPattern (apiPathOf "DELETE /api/v1/admintravelservice/admintravel/\x7btripId\x7d".toList))
        "123".toList) = true :=
  pathPattern_placeholder_spec.2
    { faultName := "INVALID_TRIP_ID_FORMAT_FAULT".toList,
      service := "ts-admin-travel-service".toList,
      api := ["DELETE /api/v1/admintravelservice/admintravel/\x7btripId\x7d".toList],
      description := "Rejects trip deletion when tripId is null or empty".toList }
    (by decide) _ (by decide) _ (by decide) (by decide)

/-! ## The Text-Evidence Scanner (`_analyze_test_content`)

The function also computes `re.findall(r'def (test_\w+)\(self\):', content)`
into a local `test_methods` variable that is never used afterwards; that dead
assignment is not modelled. -/

/-- Python's `needle in hay`. -/
def isSubstring (needle hay : List Char) : Bool :=
  (List.range (hay.length + 1)).any (fun i => needle.isPrefixOf (hay.drop i))

/-- Greedy match length of a token pattern at the head of `s` (the class
token consumes the longest non-quote run that lets the rest match, as the
regex `[^"\']+` does). -/
def matchLen : List PatTok → List Char → Option Nat
  | [], _ => some 0
  | .lit _ :: _, [] => none
  | .lit c :: p, d :: s => if c == d then (matchLen p s).map (· + 1) else none
  | .nonQuotePlus :: p, s =>
      ((List.range ((s.takeWhile isNonQuote).length)).reverse.map (· + 1)).findSome?
        (fun k => (matchLen p (s.drop k)).map (k + ·))

/-- `re.finditer(path_pattern, content)`: all non-overlapping matches, left
to right, as `(start, end)` pairs.  `i` is the absolute position of the scan
head, `skip` the number of positions still inside the previous match. -/
def findPatScan : List Char → Nat → Nat → List PatTok → List (Nat × Nat)
  | [], _, _, _ => []
  | _ :: rest, i, k + 1, pat => findPatScan rest (i + 1) k pat
  | c :: rest, i, 0, pat =>
      match matchLen pat (c :: rest) with
      | some n => (i, i + n) :: findPatScan rest (i + 1) (n - 1) pat
      | none => findPatScan rest (i + 1) 0 pat

def findPat (pat : List PatTok) (content : List Char) : List (Nat × Nat) :=
  findPatScan content 0 0 pat

/-- `re.finditer(re.escape(fault_name), content)`: literal occurrences. -/
def litPattern (s : List Char) : List PatTok := s.map .lit

def findLit (needle content : List Char) : List (Nat × Nat) :=
  findPat (litPattern needle) content

/-- `filename.replace('.py', '')` (replace every occurrence). -/
def replaceAllAux (needle repl : List Char) : List Char → Nat → List Char
  | [], _ => []
  | _ :: rest, k + 1 => replaceAllAux needle repl rest k
  | c :: rest, 0 =>
      if needle.isPrefixOf (c :: rest) then
        repl ++ replaceAllAux needle repl rest (needle.length - 1)
      else c :: replaceAllAux needle repl rest 0

def replaceAll (needle repl s : List Char) : List Char := replaceAllAux needle repl s 0

def testClassOf (filename : List Char) : List Char := replaceAll ".py".toList [] filename

/-- Python `test_method or 'unknown'` (both `None` and `''` are falsy). -/
def orUnknown : Option (List Char) → List Char
  | none => "unknown".toList
  | some m => if m = [] then "unknown".toList else m

/-- Direct fault-name heuristic (lines 178–190): every literal occurrence of
the fault name yields a record attributed via the Locator. -/
def directNameHeuristic (fault : FaultDef) (content fname ts : List Char) (l : Ledger) : Ledger :=
  if isSubstring fault.faultName content then
    (findLit fault.faultName content).foldl (fun l m =>
      recordDetection l (.str fault.faultName)
        { source := some fname, test_class := some (testClassOf fname),
          test_method := some (orUnknown (findContainingTestMethod content m.1)),
          timestamp := some ts }) l
  else l

/-! ### Marker-correlation heuristic (lines 192–205)

Gate: `'"isInjected": true' in content or "'isInjected': true" in content.lower()`.
Then `re.finditer` of
`["\']isInjected["\']\s*:\s*[Tt]rue.*?["\']faultName["\']\s*:\s*["\'](\w+)["\']`
with `re.DOTALL`. -/

def markerGate (content : List Char) : Bool :=
  isSubstring "\"isInjected\": true".toList content ||
  isSubstring "'isInjected': true".toList (content.map Char.toLower)

def isQuote (c : Char) : Bool := c == '"' || c == '\''

/-- Python's `\s`. -/
def isSpaceChar (c : Char) : Bool :=
  c == ' ' || c == '\t' || c == '\n' || c == '\r' || c == '\x0b' || c == '\x0c'

/-- Length of a match of `["\']isInjected["\']\s*:\s*[Tt]rue` at the head of
`s` (deterministic: each `\s*` is followed by a non-space requirement). -/
def matchQ1 : List Char → Option Nat
  | [] => none
  | c :: rest =>
      if isQuote c && "isInjected".toList.isPrefixOf rest then
        match rest.drop 10 with
        | q2 :: r2 =>
            if isQuote q2 then
              let w1 := r2.takeWhile isSpaceChar
              match r2.drop w1.length with
              | ':' :: r3 =>
                  let w2 := r3.takeWhile isSpaceChar
                  match r3.drop w2.length with
                  | t :: r4 =>
                      if (t == 'T' || t == 't') && "rue".toList.isPrefixOf r4 then
                        some (17 + w1.length + w2.length)
                      else none
                  | [] => none
              | _ => none
            else none
        | [] => none
      else none

/-- Length and capture of `["\']faultName["\']\s*:\s*["\'](\w+)["\']` at the
head of `s`. -/
def matchQ2 : List Char → Option (Nat × List Char)
  | [] => none
  | c :: rest =>
      if isQuote c && "faultName".toList.isPrefixOf rest then
        match rest.drop 9 with
        | q2 :: r2 =>
            if isQuote q2 then
              let w1 := r2.takeWhile isSpaceChar
              match r2.drop w1.length with
              | ':' :: r3 =>
                  let w2 := r3.takeWhile isSpaceChar
                  match r3.drop w2.length with
                  | q3 :: r4 =>
                      if isQuote q3 then
                        let w := r4.takeWhile isWordChar
                        if w ≠ [] then
                          match r4.drop w.length with
                          | q4 :: _ =>
                              if isQuote q4 then
                                some (15 + w1.length + w2.length + w.length, w)
                              else none
                          | [] => none
                        else none
                      else none
                  | [] => none
              | _ => none
            else none
        | [] => none
      else none

/-- The non-greedy `.*?` (with `DOTALL`): smallest offset at which the
fault-name part matches.  Returns `(offset, length, capture)`. -/
def findQ2 : List Char → Option (Nat × Nat × List Char)
  | [] => none
  | c :: rest =>
      match matchQ2 (c :: rest) with
      | some (n, w) => some (0, n, w)
      | none => (findQ2 rest).map (fun r => (r.1 + 1, r.2.1, r.2.2))

/-- Match of the whole marker-pair regex at the head of `s`: the injected
part, then the shortest gap, then the fault-name part. -/
def matchPairAt (s : List Char) : Option (Nat × List Char) :=
  match matchQ1 s with
  | none => none
  | some n1 =>
      match findQ2 (s.drop n1) with
      | some (j, n2, w) => some (n1 + j + n2, w)
      | none => none

/-- `re.finditer` of the marker-pair regex: `(start, capture)` pairs. -/
def findPairsScan : List Char → Nat → Nat → List (Nat × List Char)
  | [], _, _ => []
  | _ :: rest, i, k + 1 => findPairsScan rest (i + 1) k
  | c :: rest, i, 0 =>
      match matchPairAt (c :: rest) with
      | some (n, w) => (i, w) :: findPairsScan rest (i + 1) (n - 1)
      | none => findPairsScan rest (i + 1) 0

def findIsInjectedPairs (content : List Char) : List (Nat × List Char) :=
  findPairsScan content 0 0

def markerHeuristic (fault : FaultDef) (content fname ts : List Char) (l : Ledger) : Ledger :=
  if markerGate content then
    (findIsInjectedPairs content).foldl (fun l pr =>
      if pr.2 = fault.faultName then
        recordDetection l (.str fault.faultName)
          { source := some fname, test_class := some (testClassOf fname),
            test_method := some (orUnknown (findContainingTestMethod content pr.1)),
            timestamp := some ts }
      else l) l
  else l

/-- No character lowercases to an uppercase `I`, so the needle
`'isInjected': true` can never occur in `content.lower()`. -/
theorem toLower_ne_upper_I (c : Char) : Char.toLower c ≠ 'I' := by
  unfold Char.toLower
  by_cases h : (65 ≤ c.toNat ∧ c.toNat ≤ 90)
  · rw [if_pos h]
    obtain ⟨h1, h2⟩ := h
    set n := c.toNat with hn
    interval_cases n <;> decide
  · rw [if_neg h]
    intro hc
    subst hc
    exact h (by decide)

theorem lowercased_gate_always_false (content : List Char) :
    isSubstring "'isInjected': true".toList (content.map Char.toLower) = false := by
  by_contra hne
  rw [Bool.not_eq_false, isSubstring, List.any_eq_true] at hne
  obtain ⟨i, _, hpre⟩ := hne
  obtain ⟨t, ht⟩ := (isPrefixOf_eq_true_iff _ _).1 hpre
  have h3 : ((content.map Char.toLower).drop i)[3]? = some 'I' := by
    rw [ht, List.getElem?_append_left (by decide)]
    rfl
  rw [List.getElem?_drop, List.getElem?_map] at h3
  cases hx : content[i + 3]? with
  | none => rw [hx] at h3; cases h3
  | some x =>
      rw [hx] at h3
      injection h3 with h3
      exact toLower_ne_upper_I x h3

/-- The artifact text that refutes the claimed case-insensitive enabling:
the canonical single-quoted marker, in the marker token's exact casing. -/
def c3Content : List Char :=
  "'isInjected': true, 'faultName': 'INVALID_PRICE_RATE_FAULT'".toList

/-- C3 (the code contradicts the claimed behaviour): the second disjunct of
the gate tests the mixed-case needle `'isInjected': true` against the
lowercased text and is therefore always false, so the marker-correlation
heuristic is enabled only by the exact double-quoted `"isInjected": true`;
in particular on `c3Content` — which contains an injected-fault marker set
to true and a matching catalog fault name — the gate is false and the
heuristic emits nothing for any fault. -/
theorem markerGate_dead_branch :
    (∀ content : List Char,
        isSubstring "'isInjected': true".toList (content.map Char.toLower) = false) ∧
    markerGate c3Content = false ∧
    (∀ (f : FaultDef) (fname ts : List Char) (l : Ledger),
        markerHeuristic f c3Content fname ts l = l) := by
  have hgate : markerGate c3Content = false := by
    rw [markerGate, lowercased_gate_always_false, Bool.or_false]
    decide
  refine ⟨lowercased_gate_always_false, hgate, ?_⟩
  intro f fname ts l
  rw [markerHeuristic, hgate]
  simp

/-! ### Endpoint-proximity heuristic (lines 207–237) -/

/-- The indicator test on the symmetric 500-character window around an
occurrence `(s, e)`:
`'400' in context or 'status": 0' in context or 'isInjected' in context or
 fault_name in context`, with `context = content[max(0, s-500) : min(len, e+500)]`. -/
def indicatorWindow (content : List Char) (s e : Nat) (faultName : List Char) : Bool :=
  let start := s - 500
  let stop := min content.length (e + 500)
  let ctx := (content.drop start).take (stop - start)
  isSubstring "400".toList ctx || isSubstring "status\": 0".toList ctx ||
    isSubstring "isInjected".toList ctx || isSubstring faultName ctx

/-- The body of the per-occurrence loop: check the window, then check the
Ledger's current records for one with the same resolved test method (the raw
`test_method`, before the `or 'unknown'` coercion), and only then record. -/
def endpointStep (fault : FaultDef) (path content fname ts : List Char)
    (l : Ledger) (m : Nat × Nat) : Ledger :=
  if indicatorWindow content m.1 m.2 fault.faultName then
    let tm := findContainingTestMethod content m.1
    if (ledgerGet l (.str fault.faultName)).any (fun d => decide (d.test_method = tm)) then l
    else
      recordDetection l (.str fault.faultName)
        { source := some fname, test_class := some (testClassOf fname),
          test_method := some (orUnknown tm), api_path := some path, timestamp := some ts }
  else l

def endpointHeuristicApi (fault : FaultDef) (api content fname ts : List Char)
    (l : Ledger) : Ledger :=
  let path := apiPathOf api
  let pat := pathToPattern path
  if findPat pat content ≠ [] then
    (findPat pat content).foldl (endpointStep fault path content fname ts) l
  else l

def endpointHeuristic (fault : FaultDef) (content fname ts : List Char) (l : Ledger) : Ledger :=
  fault.api.foldl (fun l api => endpointHeuristicApi fault api content fname ts l) l

/-- `_analyze_test_content(content, filename)`: for each catalog fault, the
direct-name heuristic, then the marker-correlation heuristic, then the
endpoint-proximity heuristic, all writing into the same ledger. -/
def analyzeTestContent (content fname ts : List Char) (l : Ledger) : Ledger :=
  INJECTED_FAULTS.foldl (fun l fault =>
    endpointHeuristic fault content fname ts
      (markerHeuristic fault content fname ts
        (directNameHeuristic fault content fname ts l))) l

/-- The artifact for the concrete part of C2: the price endpoint occurs twice
inside the same test method, with `400` within 500 characters. -/
def c2Content : List Char :=
  ("def test_a(self):\n    r = c.post(\"/api/v1/adminbasicservice/adminbasic/prices\")\n    assert r.status == 400\n    r2 = c.post(\"/api/v1/adminbasicservice/adminbasic/prices\")").toList

def c2Fault : FaultDef :=
  { faultName := "INVALID_PRICE_RATE_FAULT".toList,
    service := "ts-admin-basic-info-service".toList,
    api := ["POST /api/v1/adminbasicservice/adminbasic/prices".toList],
    description := "Rejects price creation when price rates are non-positive".toList }

/-- A ledger already holding, under the price fault, a record whose raw
`test_method` is absent, for the C2 witness. -/
def c2PriorLedger : Ledger :=
  [(.str "INVALID_PRICE_RATE_FAULT".toList,
    [{ source := some "report.json".toList, test_method := none }])]

/-- C2: each occurrence step of the endpoint-proximity heuristic emits a
record (with `api_path` set) only if, at the moment of the check, no record
for the fault name with the same resolved test method is in the Ledger — a
matching record makes the step a no-op; and on an artifact in which the
fault's path occurs twice inside the same test method with `400` within 500
characters, the heuristic stores exactly one record for that
fault/test-method pair. -/
theorem endpointStep_dedup_check :
    (∀ (fault : FaultDef) (path content fname ts : List Char) (l : Ledger) (m : Nat × Nat),
       indicatorWindow content m.1 m.2 fault.faultName = true →
       ((∃ d ∈ ledgerGet l (.str fault.faultName),
            d.test_method = findContainingTestMethod content m.1) →
          endpointStep fault path content fname ts l m = l) ∧
       ((∀ d ∈ ledgerGet l (.str fault.faultName),
            d.test_method ≠ findContainingTestMethod content m.1) →
          endpointStep fault path content fname ts l m =
            recordDetection l (.str fault.faultName)
              { source := some fname, test_class := some (testClassOf fname),
                test_method := some (orUnknown (findContainingTestMethod content m.1)),
                api_path := some path, timestamp := some ts })) ∧
    (findPat (pathToPattern (apiPathOf "POST /api/v1/adminbasicservice/adminbasic/prices".toList))
        c2Content).length = 2 ∧
    (ledgerGet (endpointHeuristic c2Fault c2Content "EvoMaster_Test.py".toList "ts0".toList
          emptyLedger)
        (.str "INVALID_PRICE_RATE_FAULT".toList)).map
      (fun d => (d.test_method, d.api_path)) =
      [(some "test_a".toList,
        some "/api/v1/adminbasicservice/adminbasic/prices".toList)] := by
  refine ⟨?_, by decide, by decide⟩
  intro fault path content fname ts l m hind
  constructor
  · intro hex
    have hany : (ledgerGet l (.str fault.faultName)).any
        (fun d => decide (d.test_method = findContainingTestMethod content m.1)) = true := by
      rw [List.any_eq_true]
      obtain ⟨d, hd, hdm⟩ := hex
      exact ⟨d, hd, by simp [hdm]⟩
    simp [endpointStep, hind, hany]
  · intro hnone
    have hany : (ledgerGet l (.str fault.faultName)).any
        (fun d => decide (d.test_method = findContainingTestMethod content m.1)) = false := by
      cases hc : (ledgerGet l (.str fault.faultName)).any
          (fun d => decide (d.test_method = findContainingTestMethod content m.1)) with
      | false => rfl
      | true =>
          rw [List.any_eq_true] at hc
          obtain ⟨d, hd, hdm⟩ := hc
          rw [decide_eq_true_iff] at hdm
          exact absurd hdm (hnone d hd)
    simp [endpointStep, hind, hany]

/-- Witness for C2: a step whose resolved test method already has a record
under the fault leaves the Ledger unchanged. -/
theorem endpointStep_dedup_check_witness :
    endpointStep c2Fault "p".toList c2Content "f.py".toList "ts".toList
      c2PriorLedger (0, 0) = c2PriorLedger :=
  ((endpointStep_dedup_check.1 c2Fault "p".toList c2Content "f.py".toList "ts".toList
      c2PriorLedger (0, 0)) (by decide)).1 (by decide)

/-! ## The Structured-Evidence Scanner (`_search_json_for_faults`)

The Python function calls `_record_detection` while traversing; since the
traversal never reads the ledger, this equals collecting the
`(fault_name, details)` calls in traversal order (`searchEmissions`) and then
folding them through the insertion operation. -/

/-- `dict.get(key)` on a parsed document (parsed dicts have unique keys). -/
def lookupField : List (List Char × Json) → List Char → Option Json
  | [], _ => none
  | (k, v) :: rest, key => if k = key then some v else lookupField rest key

/-- Python's `x == True` on a parsed JSON value (`True == True`, `1 == True`). -/
def pyEqTrue : Json → Bool
  | .bool b => b
  | .num n => n == 1
  | _ => false

/-- `obj.get('isInjected') == True`. -/
def isInjectedTrue (fields : List (List Char × Json)) : Bool :=
  match lookupField fields "isInjected".toList with
  | some v => pyEqTrue v
  | none => false

/-- `obj.get('faultName', 'UNKNOWN')` — used directly as the ledger key. -/
def faultNameOf (fields : List (List Char × Json)) : Json :=
  (lookupField fields "faultName".toList).getD (.str "UNKNOWN".toList)

/-- `f"{path}.{key}" if path else key`. -/
def childPath (path key : List Char) : List Char :=
  if path = [] then key else path ++ ".".toList ++ key

/-- `f"{path}[{i}]"`. -/
def idxPath (path : List Char) (i : Nat) : List Char :=
  path ++ "[".toList ++ (toString i).toList ++ "]".toList

/-- The record emitted at a mapping with the injected flag true. -/
def injRecord (fields : List (List Char × Json)) (source path ts : List Char) : DetRecord :=
  { source := some source, path := some path,
    message := some ((lookupField fields "message".toList).getD (.str [])),
    details := some ((lookupField fields "details".toList).getD (.str [])),
    timestamp := some ts }

/-- The record emitted when a catalog fault name occurs inside a string
value (with a context excerpt bounded to 200 characters). -/
def ctxRecord (source pathKey sval ts : List Char) : DetRecord :=
  { source := some source, path := some pathKey,
    context := some (sval.take 200), timestamp := some ts }

mutual

/-- All `_record_detection` calls of the traversal, in order. -/
def searchEmissions : Json → List Char → List Char → List Char → List (Json × DetRecord)
  | .obj fields, source, path, ts =>
      (if isInjectedTrue fields then
        [(faultNameOf fields, injRecord fields source path ts)]
      else []) ++ emitFields fields source path ts
  | .arr xs, source, path, ts => emitArr xs 0 source path ts
  | _, _, _, _ => []

/-- The `for key, value in obj.items()` loop: string values are tested for
catalog fault names as substrings; all other values are recursed into. -/
def emitFields : List (List Char × Json) → List Char → List Char → List Char →
    List (Json × DetRecord)
  | [], _, _, _ => []
  | (key, v) :: rest, source, path, ts =>
      (match v with
       | .str sval =>
           INJECTED_FAULTS.foldl (fun acc fault =>
             acc ++ (if isSubstring fault.faultName sval then
               [(Json.str fault.faultName, ctxRecord source (childPath path key) sval ts)]
             else [])) []
       | _ => searchEmissions v source (childPath path key) ts)
      ++ emitFields rest source path ts

def emitArr : List Json → Nat → List Char → List Char → List Char → List (Json × DetRecord)
  | [], _, _, _, _ => []
  | x :: rest, i, source, path, ts =>
      searchEmissions x source (idxPath path i) ts ++ emitArr rest (i + 1) source path ts

end

/-- `_search_json_for_faults(obj, source)` starting at the empty path, as
the effect on the ledger. -/
def searchJsonForFaults (doc : Json) (source ts : List Char) (l : Ledger) : Ledger :=
  (searchEmissions doc source [] ts).foldl (fun l pr => recordDetection l pr.1 pr.2) l

/-- A node of a parsed document reachable through nested mappings and
sequences. -/
inductive Reaches : Json → Json → Prop where
  | refl (j : Json) : Reaches j j
  | objStep {fields : List (List Char × Json)} {key : List Char} {v target : Json} :
      (key, v) ∈ fields → Reaches v target → Reaches (.obj fields) target
  | arrStep {xs : List Json} {v target : Json} :
      v ∈ xs → Reaches v target → Reaches (.arr xs) target

theorem recordDetection_mem_mono (l : Ledger) (n' : Json) (d' : DetRecord)
    (n : Json) (d : DetRecord) (h : d ∈ ledgerGet l n) :
    d ∈ ledgerGet (recordDetection l n' d') n := by
  unfold recordDetection
  by_cases hany : (ledgerGet l n').any (fun e => sameKeyPair e d') = true
  · rw [hany]
    simpa using h
  · rw [Bool.not_eq_true] at hany
    rw [hany]
    simp only [Bool.false_eq_true, if_false]
    by_cases hn : n = n'
    · subst hn
      rw [ledgerGet_setKey_self]
      exact List.mem_append_left _ h
    · rw [ledgerGet_setKey_ne _ _ _ _ hn]
      exact h

theorem recordDetection_establishes (l : Ledger) (n : Json) (d : DetRecord) :
    ∃ e ∈ ledgerGet (recordDetection l n d) n,
      e.source = d.source ∧ e.test_method = d.test_method := by
  unfold recordDetection
  cases hany : (ledgerGet l n).any (fun e => sameKeyPair e d) with
  | true =>
      obtain ⟨e, he, hpair⟩ := (any_sameKeyPair_iff _ _).1 hany
      exact ⟨e, by simpa using he, hpair.2, hpair.1⟩
  | false =>
      refine ⟨d, ?_, rfl, rfl⟩
      simp only [Bool.false_eq_true, if_false]
      rw [ledgerGet_setKey_self]
      exact List.mem_append_right _ (by simp)

theorem foldRecord_mem_mono (ems : List (Json × DetRecord)) :
    ∀ (l : Ledger) (n : Json) (d : DetRecord), d ∈ ledgerGet l n →
      d ∈ ledgerGet (ems.foldl (fun l pr => recordDetection l pr.1 pr.2) l) n := by
  induction ems with
  | nil => intro l n d h; exact h
  | cons pr rest ih =>
      intro l n d h
      exact ih _ n d (recordDetection_mem_mono l pr.1 pr.2 n d h)

theorem foldRecord_establishes (ems : List (Json × DetRecord)) :
    ∀ (l : Ledger) (n : Json) (d : DetRecord), (n, d) ∈ ems →
      ∃ e ∈ ledgerGet (ems.foldl (fun l pr => recordDetection l pr.1 pr.2) l) n,
        e.source = d.source ∧ e.test_method = d.test_method := by
  induction ems with
  | nil => intro l n d h; cases h
  | cons pr rest ih =>
      intro l n d h
      rcases List.mem_cons.1 h with hhd | htl
      · subst hhd
        obtain ⟨e, he, hprop⟩ := recordDetection_establishes l n d
        exact ⟨e, foldRecord_mem_mono rest _ n e he, hprop⟩
      · exact ih _ n d htl

theorem reaches_nonStr_obj {v : Json} {fields : List (List Char × Json)}
    (h : Reaches v (.obj fields)) : (∃ fs, v = .obj fs) ∨ (∃ xs, v = .arr xs) := by
  cases h with
  | refl => exact Or.inl ⟨fields, rfl⟩
  | objStep hmem hr => exact Or.inl ⟨_, rfl⟩
  | arrStep hmem hr => exact Or.inr ⟨_, rfl⟩

theorem emitFields_cons_head (key : List Char) (v : Json) (rest : List (List Char × Json))
    (source path ts : List Char) (x : Json × DetRecord)
    (hnstr : ∀ sval, v ≠ .str sval)
    (hx : x ∈ searchEmissions v source (childPath path key) ts) :
    x ∈ emitFields ((key, v) :: rest) source path ts := by
  cases v <;>
    first
      | exact absurd rfl (hnstr _)
      | (simp only [emitFields]; exact List.mem_append_left _ hx)

theorem emitFields_cons_tail (p : List Char × Json) (rest : List (List Char × Json))
    (source path ts : List Char) (x : Json × DetRecord)
    (hx : x ∈ emitFields rest source path ts) :
    x ∈ emitFields (p :: rest) source path ts := by
  obtain ⟨key', v'⟩ := p
  cases v' <;> (simp only [emitFields]; exact List.mem_append_right _ hx)

theorem emitFields_mem_of_value (x : Json × DetRecord) (source ts : List Char) :
    ∀ (fields : List (List Char × Json)) (path key : List Char) (v : Json),
      (key, v) ∈ fields → (∀ sval, v ≠ .str sval) →
      x ∈ searchEmissions v source (childPath path key) ts →
      x ∈ emitFields fields source path ts := by
  intro fields
  induction fields with
  | nil => intro path key v h; cases h
  | cons p rest ih =>
      intro path key v hmem hnstr hx
      rcases List.mem_cons.1 hmem with hhd | htl
      · subst hhd
        exact emitFields_cons_head key v rest source path ts x hnstr hx
      · exact emitFields_cons_tail p rest source path ts x (ih path key v htl hnstr hx)

theorem emitArr_mem_of_value (P : Json × DetRecord → Prop) (source ts : List Char) :
    ∀ (xs : List Json) (i : Nat) (path : List Char) (v : Json),
      v ∈ xs →
      (∀ path', ∃ x, P x ∧ x ∈ searchEmissions v source path' ts) →
      ∃ x, P x ∧ x ∈ emitArr xs i source path ts := by
  intro xs
  induction xs with
  | nil => intro i path v h; cases h
  | cons y rest ih =>
      intro i path v hmem hx
      rcases List.mem_cons.1 hmem with hhd | htl
      · subst hhd
        obtain ⟨x, hP, hmem'⟩ := hx (idxPath path i)
        refine ⟨x, hP, ?_⟩
        rw [emitArr]
        exact List.mem_append_left _ hmem'
      · obtain ⟨x, hP, hmem'⟩ := ih (i + 1) path v htl hx
        refine ⟨x, hP, ?_⟩
        rw [emitArr]
        exact List.mem_append_right _ hmem'

theorem reaches_emission {doc target : Json} (h : Reaches doc target) :
    ∀ fields : List (List Char × Json), target = .obj fields →
      isInjectedTrue fields = true →
      ∀ source ts path : List Char, ∃ pth,
        (faultNameOf fields, injRecord fields source pth ts) ∈
          searchEmissions doc source path ts := by
  induction h with
  | refl j =>
      intro fields htarget hinj source ts path
      subst htarget
      refine ⟨path, ?_⟩
      rw [searchEmissions, hinj]
      simp
  | objStep hmem hr ih =>
      intro fields htarget hinj source ts path
      rename_i fields' key v _
      obtain ⟨pth, hpth⟩ := ih fields htarget hinj source ts (childPath path key)
      refine ⟨pth, ?_⟩
      rw [searchEmissions]
      refine List.mem_append_right _ ?_
      refine emitFields_mem_of_value _ source ts fields' path key v hmem ?_ hpth
      intro sval hsv
      subst hsv
      subst htarget
      rcases reaches_nonStr_obj hr with ⟨fs, hfs⟩ | ⟨xs, hxs⟩
      · exact Json.noConfusion hfs
      · exact Json.noConfusion hxs
  | arrStep hmem hr ih =>
      intro fields htarget hinj source ts path
      rename_i xs v _
      have hstep := emitArr_mem_of_value
        (fun x => ∃ pth, x = (faultNameOf fields, injRecord fields source pth ts))
        source ts xs 0 path v hmem ?_
      · obtain ⟨x, ⟨pth, hx⟩, hmem'⟩ := hstep
        subst hx
        exact ⟨pth, by rw [searchEmissions]; exact hmem'⟩
      · intro path'
        obtain ⟨pth, hpth⟩ := ih fields htarget hinj source ts path'
        exact ⟨(faultNameOf fields, injRecord fields source pth ts), ⟨pth, rfl⟩, hpth⟩

/-- C4: whenever a parsed document contains, at any nesting depth reachable
through mappings and sequences, a mapping whose injected flag tests true, the
scanner leaves in the Ledger at least one record keyed by that mapping's
fault name — `obj.get('faultName', 'UNKNOWN')`, the `UNKNOWN` sentinel when
the field is absent — whose `source` is the document's identifying name. -/
theorem searchJsonForFaults_finds_marker
    (doc : Json) (fields : List (List Char × Json)) (source ts : List Char) (l : Ledger)
    (hreach : Reaches doc (.obj fields)) (hinj : isInjectedTrue fields = true) :
    ∃ e ∈ ledgerGet (searchJsonForFaults doc source ts l) (faultNameOf fields),
      e.source = some source := by
  obtain ⟨pth, hmem⟩ := reaches_emission hreach fields rfl hinj source ts []
  obtain ⟨e, he, hsrc, _⟩ :=
    foldRecord_establishes (searchEmissions doc source [] ts) l
      (faultNameOf fields) (injRecord fields source pth ts) hmem
  exact ⟨e, he, by rw [hsrc]; rfl⟩

/-- Witness for C4: the structured-report document
`\x7b"results": [\x7b"isInjected": true, "faultName": "INSUFFICIENT_STATIONS_FAULT"\x7d]\x7d`
yields a record for `INSUFFICIENT_STATIONS_FAULT` with source `report.json`. -/
theorem searchJsonForFaults_finds_marker_witness :
    ∃ e ∈ ledgerGet
        (searchJsonForFaults
          (.obj [("results".toList,
            .arr [.obj [("isInjected".toList, .bool true),
                        ("faultName".toList, .str "INSUFFICIENT_STATIONS_FAULT".toList)]])])
          "report.json".toList "ts0".toList emptyLedger)
        (.str "INSUFFICIENT_STATIONS_FAULT".toList),
      e.source = some "report.json".toList :=
  searchJsonForFaults_finds_marker _
    [("isInjected".toList, .bool true),
     ("faultName".toList, .str "INSUFFICIENT_STATIONS_FAULT".toList)]
    "report.json".toList "ts0".toList emptyLedger
    (Reaches.objStep (List.mem_singleton.2 rfl)
      (Reaches.arrStep (List.mem_singleton.2 rfl) (Reaches.refl _)))
    (by decide)

/-! ## `_analyze_report_json`, `_analyze_test_files`, `_count_test_cases`

The report file may be absent (`report_path.exists()` false: return with no
output), may fail to open or parse (the `try` around `open`/`json.load`
catches every exception and prints a warning), or parses to a document (only
scanned when the top-level value is a mapping). -/

inductive ReportSource where
  | absent : ReportSource
  | unreadable : ReportSource
  | parsed : Json → ReportSource

def reportWarning : List Char := "Warning: Error reading report.json".toList

/-- `_analyze_report_json`: the new ledger and the warnings printed. -/
def analyzeReportJson (rs : ReportSource) (ts : List Char) (l : Ledger) :
    Ledger × List (List Char) :=
  match rs with
  | .absent => (l, [])
  | .unreadable => (l, [reportWarning])
  | .parsed doc =>
      match doc with
      | .obj fields => (searchJsonForFaults (.obj fields) "report.json".toList ts l, [])
      | _ => (l, [])

/-- The artifact directory: the optional structured report and the `*.py`
files (name, content, with `none` when reading raises). -/
structure TestFolder where
  report : ReportSource
  pyFiles : List (List Char × Option (List Char))

/-- `test_file.name.startswith('__') or test_file.name == 'em_test_utils.py'`. -/
def skipFile (name : List Char) : Bool :=
  "__".toList.isPrefixOf name || name = "em_test_utils.py".toList

/-- `_analyze_test_files`: scan each readable, non-excluded artifact;
an unreadable file yields a warning and is skipped. -/
def analyzeTestFiles (files : List (List Char × Option (List Char))) (ts : List Char)
    (l : Ledger) : Ledger × List (List Char) :=
  files.foldl (fun acc f =>
    if skipFile f.1 then acc
    else
      match f.2 with
      | none => (acc.1, acc.2 ++ ["Warning: Error reading ".toList ++ f.1])
      | some content => (analyzeTestContent content f.1 ts acc.1, acc.2)) (l, [])

/-- `_count_test_cases`: over `EvoMaster_*.py` files, count the test-method
definition markers; reading failures are swallowed. -/
def countTestCases (files : List (List Char × Option (List Char))) : Nat :=
  files.foldl (fun n f =>
    if "EvoMaster_".toList.isPrefixOf f.1 then
      match f.2 with
      | some content => n + (scanMarkers content).length
      | none => n
    else n) 0

/-- `analyze()`: the structured scan, then the text scan, then the case
count, from the empty per-run ledger. -/
def analyze (tf : TestFolder) (ts : List Char) : Ledger × Nat × List (List Char) :=
  let r1 := analyzeReportJson tf.report ts emptyLedger
  let r2 := analyzeTestFiles tf.pyFiles ts r1.1
  (r2.1, countTestCases tf.pyFiles, r1.2 ++ r2.2)

/-- C9: an absent structured report is skipped silently (no ledger change,
no warning); a present but unreadable/unparsable one is caught, reported as
one non-fatal warning, leaves the Ledger untouched, and the run proceeds to
the text-scan and counting phases exactly as if the report were absent. -/
theorem analyzeReportJson_error_policy :
    (∀ (ts : List Char) (l : Ledger), analyzeReportJson .absent ts l = (l, [])) ∧
    (∀ (ts : List Char) (l : Ledger),
        analyzeReportJson .unreadable ts l = (l, [reportWarning])) ∧
    (∀ (files : List (List Char × Option (List Char))) (ts : List Char),
        analyze ⟨.unreadable, files⟩ ts =
          ((analyze ⟨.absent, files⟩ ts).1,
           (analyze ⟨.absent, files⟩ ts).2.1,
           reportWarning :: (analyze ⟨.absent, files⟩ ts).2.2)) := by
  refine ⟨fun ts l => rfl, fun ts l => rfl, fun files ts => ?_⟩
  rfl

/-! ## The Report Generator (`generate_report`, `generate_progress_bar`)

The text layout (padding, headers, the `[{bar}] {pct:.1f}%` wrapper) is
presentation; the report's content is modelled structurally: the statistics
rows, the detected-fault blocks (with the 5-record rendering cap and the
remainder note) and the undetected-fault list, each iterating the catalog in
its fixed order.  Percentages are over exact rationals. -/

/-- Truthiness of `self.detected_faults.get(f['faultName'])` (a non-empty
record list). -/
def faultDetected (l : Ledger) (f : FaultDef) : Bool :=
  !(ledgerGet l (.str f.faultName)).isEmpty

/-- One detected-fault detail block: up to 5 rendered records and the
`... and N more detection(s)` note for any remainder. -/
structure DetBlock where
  name : List Char
  recordCount : Nat
  shown : List DetRecord
  extra : Option Nat
deriving DecidableEq

def blockOf (l : Ledger) (f : FaultDef) : DetBlock :=
  { name := f.faultName,
    recordCount := (ledgerGet l (.str f.faultName)).length,
    shown := (ledgerGet l (.str f.faultName)).take 5,
    extra := if 5 < (ledgerGet l (.str f.faultName)).length
             then some ((ledgerGet l (.str f.faultName)).length - 5) else none }

/-- The detected-faults section (lines 319–352). -/
def detectedBlocks (l : Ledger) : List DetBlock :=
  (INJECTED_FAULTS.filter (faultDetected l)).map (blockOf l)

/-- The undetected-faults section (lines 365–383). -/
def undetectedNames (l : Ledger) : List (List Char) :=
  (INJECTED_FAULTS.filter (fun f => (ledgerGet l (.str f.faultName)).isEmpty)).map
    (fun f => f.faultName)

/-- The statistics table rows (lines 397–402): name, detected?, count. -/
def statsRows (l : Ledger) : List (List Char × Bool × Nat) :=
  INJECTED_FAULTS.map (fun f =>
    (f.faultName, faultDetected l f, (ledgerGet l (.str f.faultName)).length))

/-- The totals row's record sum (line 405):
`sum(len(d) for d in self.detected_faults.values())`. -/
def totalsRecordSum (l : Ledger) : Nat := (l.map (fun p => p.2.length)).sum

def totalFaults : Nat := INJECTED_FAULTS.length

def detectedCount (l : Ledger) : Nat := (INJECTED_FAULTS.filter (faultDetected l)).length

/-- `(detected_count / total_faults * 100) if total_faults > 0 else 0`. -/
def detectionPercentage (total detected : Nat) : ℚ :=
  if 0 < total then (detected : ℚ) / (total : ℚ) * 100 else 0

/-- `int(width * percentage / 100)` (truncation = floor for the nonnegative
percentages the report computes). -/
def progressFilled (percentage : ℚ) (width : Nat) : Nat :=
  (Int.floor ((width : ℚ) * percentage / 100)).toNat

/-- The cells of `'#' * filled + '-' * (width - filled)`. -/
def progressBarCells (percentage : ℚ) (width : Nat) : List Char :=
  List.replicate (progressFilled percentage width) '#' ++
    List.replicate (width - progressFilled percentage width) '-'

/-- Number of occurrences of a fault name in a list of names. -/
def countOcc (nm : List Char) (names : List (List Char)) : Nat :=
  (names.filter (fun x => x = nm)).length

theorem countOcc_append (nm : List Char) (a b : List (List Char)) :
    countOcc nm (a ++ b) = countOcc nm a + countOcc nm b := by
  unfold countOcc
  rw [List.filter_append, List.length_append]

theorem countOcc_perm (nm : List Char) {a b : List (List Char)} (h : a.Perm b) :
    countOcc nm a = countOcc nm b := by
  unfold countOcc
  exact (h.filter _).length_eq

theorem countOcc_catalog :
    ∀ f ∈ INJECTED_FAULTS,
      countOcc f.faultName (INJECTED_FAULTS.map (fun f => f.faultName)) = 1 := by
  decide

theorem catalogNames_inj :
    ∀ f ∈ INJECTED_FAULTS, ∀ g ∈ INJECTED_FAULTS, f.faultName = g.faultName → f = g := by
  decide

theorem undetectedNames_eq (l : Ledger) :
    undetectedNames l =
      (INJECTED_FAULTS.filter (fun f => !(faultDetected l f))).map (fun f => f.faultName) := by
  unfold undetectedNames
  congr 1
  apply List.filter_congr
  intro f _
  simp [faultDetected]

theorem detectedBlocks_names (l : Ledger) :
    (detectedBlocks l).map DetBlock.name =
      (INJECTED_FAULTS.filter (faultDetected l)).map (fun f => f.faultName) := by
  unfold detectedBlocks
  rw [List.map_map]
  rfl

/-- C7: every catalog fault appears exactly once among the statistics rows
and exactly once in exactly one of the detected/undetected detail sections
(the detected one iff the Ledger holds a record for it), each section
listing faults in catalog order (a sublist of the catalog); and each
detected block renders at most 5 records, noting the count of the remainder
beyond 5. -/
theorem generateReport_sections (l : Ledger) :
    ((statsRows l).map (fun r => r.1) = INJECTED_FAULTS.map (fun f => f.faultName)) ∧
    ((detectedBlocks l).map DetBlock.name).Sublist
      (INJECTED_FAULTS.map (fun f => f.faultName)) ∧
    (undetectedNames l).Sublist (INJECTED_FAULTS.map (fun f => f.faultName)) ∧
    (∀ f ∈ INJECTED_FAULTS,
      countOcc f.faultName ((statsRows l).map (fun r => r.1)) = 1 ∧
      countOcc f.faultName ((detectedBlocks l).map DetBlock.name) +
        countOcc f.faultName (undetectedNames l) = 1 ∧
      (f.faultName ∈ (detectedBlocks l).map DetBlock.name ↔
        ledgerGet l (.str f.faultName) ≠ [])) ∧
    (∀ b ∈ detectedBlocks l,
      b.recordCount = (ledgerGet l (.str b.name)).length ∧
      b.shown = (ledgerGet l (.str b.name)).take 5 ∧
      b.shown.length ≤ 5 ∧
      b.extra = if 5 < b.recordCount then some (b.recordCount - 5) else none) := by
  have hstats : (statsRows l).map (fun r => r.1) =
      INJECTED_FAULTS.map (fun f => f.faultName) := by
    unfold statsRows
    rw [List.map_map]
    rfl
  have hperm :
      ((INJECTED_FAULTS.filter (faultDetected l)).map (fun f => f.faultName) ++
        (INJECTED_FAULTS.filter (fun f => !(faultDetected l f))).map (fun f => f.faultName)).Perm
        (INJECTED_FAULTS.map (fun f => f.faultName)) := by
    rw [← List.map_append]
    exact (List.filter_append_perm _ _).map _
  refine ⟨hstats,
    by rw [detectedBlocks_names]; exact (List.filter_sublist _).map _,
    by rw [undetectedNames_eq]; exact (List.filter_sublist _).map _,
    ?_, ?_⟩
  · intro f hf
    have hone : countOcc f.faultName (INJECTED_FAULTS.map (fun f => f.faultName)) = 1 :=
      countOcc_catalog f hf
    refine ⟨by rw [hstats]; exact hone, ?_, ?_⟩
    · rw [detectedBlocks_names, undetectedNames_eq, ← countOcc_append,
        countOcc_perm _ hperm, hone]
    · rw [detectedBlocks_names]
      constructor
      · intro hin
        obtain ⟨g, hgf, hgn⟩ := List.mem_map.1 hin
        obtain ⟨hgcat, hgp⟩ := List.mem_filter.1 hgf
        have hgf2 : g = f := catalogNames_inj g hgcat f hf hgn
        subst hgf2
        intro hempty
        rw [faultDetected, hempty] at hgp
        simp at hgp
      · intro hne
        refine List.mem_map_of_mem _ (List.mem_filter.2 ⟨hf, ?_⟩)
        rw [faultDetected]
        cases hget : ledgerGet l (.str f.faultName) with
        | nil => exact absurd hget hne
        | cons a t => simp
  · intro b hb
    obtain ⟨f, _, hfb⟩ := List.mem_map.1 hb
    cases hfb
    exact ⟨rfl, rfl, by simp [blockOf, List.length_take], rfl⟩

/-- A concrete ledger with records for three catalog faults. -/
def rptLedger : Ledger :=
  [(.str "INVALID_CONTACTS_NAME_FAULT".toList, [{ source := some "a.py".toList }]),
   (.str "INVALID_PRICE_RATE_FAULT".toList, [{ source := some "a.py".toList }]),
   (.str "INSUFFICIENT_STATIONS_FAULT".toList, [{ source := some "a.py".toList }])]

/-- Witness for C7: with records for exactly three faults, the insufficient-
stations fault appears exactly once across the two detail sections. -/
theorem generateReport_sections_witness :
    countOcc "INSUFFICIENT_STATIONS_FAULT".toList
        ((detectedBlocks rptLedger).map DetBlock.name) +
      countOcc "INSUFFICIENT_STATIONS_FAULT".toList (undetectedNames rptLedger) = 1 :=
  (((generateReport_sections rptLedger).2.2.2.1
    { faultName := "INSUFFICIENT_STATIONS_FAULT".toList,
      service := "ts-admin-route-service".toList,
      api := ["POST /api/v1/adminrouteservice/adminroute".toList],
      description := "Rejects route creation when station list has fewer than 2 stations".toList }
    (by decide)).2).1

/-- C8: the detection percentage is `detected / total * 100` (0 when the
total is 0); the progress bar has 50 cells of which `floor(percentage / 2)`
are filled; and with the catalog's 10 faults and a ledger detecting 3 of
them the percentage is 30 and exactly 15 of the 50 cells are filled. -/
theorem detectionPercentage_progressBar :
    totalFaults = 10 ∧
    (∀ t d : Nat, 0 < t → detectionPercentage t d = (d : ℚ) / (t : ℚ) * 100) ∧
    (∀ d : Nat, detectionPercentage 0 d = 0) ∧
    (∀ p : ℚ, 0 ≤ p → p ≤ 100 →
      (progressBarCells p 50).length = 50 ∧
      (progressBarCells p 50).count '#' = (Int.floor (p / 2)).toNat) ∧
    detectedCount rptLedger = 3 ∧
    detectionPercentage totalFaults (detectedCount rptLedger) = 30 ∧
    progressFilled (detectionPercentage totalFaults (detectedCount rptLedger)) 50 = 15 ∧
    (progressBarCells (detectionPercentage totalFaults (detectedCount rptLedger)) 50).count
      '#' = 15 ∧
    (progressBarCells (detectionPercentage totalFaults (detectedCount rptLedger)) 50).length
      = 50 := by
  have hcount : detectedCount rptLedger = 3 := by decide
  have htot : totalFaults = 10 := by decide
  have hbar : ∀ p : ℚ, 0 ≤ p → p ≤ 100 →
      (progressBarCells p 50).length = 50 ∧
      (progressBarCells p 50).count '#' = (Int.floor (p / 2)).toNat := by
    intro p hp0 hp100
    have hhalf : (50 : ℚ) * p / 100 = p / 2 := by ring
    have hfl : progressFilled p 50 = (Int.floor (p / 2)).toNat := by
      rw [progressFilled]
      norm_num [hhalf]
    have hle : progressFilled p 50 ≤ 50 := by
      rw [hfl]
      have h1 : p / 2 ≤ 50 := by linarith
      have h2 : Int.floor (p / 2) ≤ Int.floor (50 : ℚ) := Int.floor_le_floor h1
      have h3 : Int.floor ((50 : ℚ)) = 50 := by norm_num
      omega
    constructor
    · rw [progressBarCells, List.length_append, List.length_replicate,
        List.length_replicate]
      omega
    · rw [progressBarCells, List.count_append, List.count_replicate_self,
        List.count_replicate, hfl]
      have hne : (('-' : Char) == '#') = false := by decide
      rw [hne]
      simp
  have hpct : detectionPercentage totalFaults (detectedCount rptLedger) = 30 := by
    rw [hcount, htot, detectionPercentage]
    norm_num
  have hfill : progressFilled (30 : ℚ) 50 = 15 := by
    rw [progressFilled]
    norm_num
    decide
  refine ⟨htot, ?_, ?_, hbar, hcount, hpct, ?_, ?_, ?_⟩
  · intro t d ht
    rw [detectionPercentage, if_pos ht]
  · intro d
    rw [detectionPercentage]
    norm_num
  · rw [hpct]
    exact hfill
  · have hfl2 : (Int.floor ((30 : ℚ) / 2)).toNat = 15 := by
      norm_num
      decide
    rw [hpct, (hbar 30 (by norm_num) (by norm_num)).2, hfl2]
  · rw [hpct]
    exact (hbar 30 (by norm_num) (by norm_num)).1

/-- Witness for C8 at the boundary percentage 100. -/
theorem detectionPercentage_progressBar_witness :
    (progressBarCells 100 50).length = 50 ∧
    (progressBarCells 100 50).count '#' = (Int.floor ((100 : ℚ) / 2)).toNat :=
  detectionPercentage_progressBar.2.2.2.1 100 (by norm_num) (by norm_num)

/-! ## The totals row versus the per-fault rows (C10) -/

/-- Remove the first entry stored under a key. -/
def eraseKey : Ledger → Json → Ledger
  | [], _ => []
  | (k, v) :: rest, n => if k = n then rest else (k, v) :: eraseKey rest n

theorem totalsRecordSum_eraseKey (l : Ledger) (n : Json) :
    totalsRecordSum l = (ledgerGet l n).length + totalsRecordSum (eraseKey l n) := by
  induction l with
  | nil => rfl
  | cons p rest ih =>
      obtain ⟨k, v⟩ := p
      have he : eraseKey ((k, v) :: rest) n =
          if k = n then rest else (k, v) :: eraseKey rest n := rfl
      have hg : ledgerGet ((k, v) :: rest) n =
          if k = n then v else ledgerGet rest n := rfl
      by_cases hk : k = n
      · rw [hg, he, if_pos hk, if_pos hk]
        simp only [totalsRecordSum, List.map_cons, List.sum_cons]
      · rw [hg, he, if_neg hk, if_neg hk]
        simp only [totalsRecordSum, List.map_cons, List.sum_cons]
        simp only [totalsRecordSum] at ih
        omega

theorem ledgerGet_eraseKey_ne (l : Ledger) (n m : Json) (h : m ≠ n) :
    ledgerGet (eraseKey l n) m = ledgerGet l m := by
  induction l with
  | nil => rfl
  | cons p rest ih =>
      obtain ⟨k, v⟩ := p
      have he : eraseKey ((k, v) :: rest) n =
          if k = n then rest else (k, v) :: eraseKey rest n := rfl
      by_cases hk : k = n
      · subst hk
        rw [he, if_pos rfl]
        have hkm : ¬ k = m := fun hh => h hh.symm
        have hg : ledgerGet ((k, v) :: rest) m =
            if k = m then v else ledgerGet rest m := rfl
        rw [hg, if_neg hkm]
      · rw [he, if_neg hk]
        have hg1 : ledgerGet ((k, v) :: eraseKey rest n) m =
            if k = m then v else ledgerGet (eraseKey rest n) m := rfl
        have hg2 : ledgerGet ((k, v) :: rest) m =
            if k = m then v else ledgerGet rest m := rfl
        rw [hg1, hg2, ih]

theorem sum_ledgerGet_le (names : List Json) :
    names.Nodup → ∀ l : Ledger,
      ((names.map (fun n => (ledgerGet l n).length)).sum ≤ totalsRecordSum l) := by
  induction names with
  | nil => intro _ l; simp [totalsRecordSum]
  | cons n ns ih =>
      intro hnd l
      rw [List.nodup_cons] at hnd
      have hmap : ns.map (fun m => (ledgerGet l m).length) =
          ns.map (fun m => (ledgerGet (eraseKey l n) m).length) := by
        apply List.map_congr_left
        intro m hm
        rw [ledgerGet_eraseKey_ne l n m (fun hh => hnd.1 (hh ▸ hm))]
      rw [List.map_cons, List.sum_cons, hmap]
      have := ih hnd.2 (eraseKey l n)
      have htot := totalsRecordSum_eraseKey l n
      omega

/-- The catalog's fault names as ledger keys. -/
def catalogKeys : List Json := INJECTED_FAULTS.map (fun f => Json.str f.faultName)

theorem catalogKeys_nodup : catalogKeys.Nodup := by decide

/-- The document for the strictness part of C10: an injected marker with no
`faultName` field, recorded under the `UNKNOWN` sentinel. -/
def c10Doc : Json := .obj [("isInjected".toList, .bool true)]

def c10Ledger : Ledger :=
  searchJsonForFaults c10Doc "report.json".toList "ts0".toList emptyLedger

/-- C10: the per-fault statistics rows sum record counts over catalog faults
only, while the totals row sums over every Ledger key, so the totals-row sum
dominates the per-fault sum for every Ledger — strictly, when the structured
scanner has stored a record under the non-catalog `UNKNOWN` sentinel. -/
theorem totalsRow_dominates_statsRows :
    (∀ l : Ledger, ((statsRows l).map (fun r => r.2.2)).sum ≤ totalsRecordSum l) ∧
    ledgerGet c10Ledger (.str "UNKNOWN".toList) ≠ [] ∧
    ((statsRows c10Ledger).map (fun r => r.2.2)).sum = 0 ∧
    totalsRecordSum c10Ledger = 1 := by
  refine ⟨?_, by decide, by decide, by decide⟩
  intro l
  have heq : (statsRows l).map (fun r => r.2.2) =
      catalogKeys.map (fun n => (ledgerGet l n).length) := by
    unfold statsRows catalogKeys
    rw [List.map_map, List.map_map]
    rfl
  rw [heq]
  exact sum_ledgerGet_le catalogKeys catalogKeys_nodup l

end FaultAnalysis
